import Mathlib

/-!
Verification development for the gm4-polyfill compatibility adapter
(`gm4-polyfill.js`, canonical enhanced variant, lines 19-234).

The adapter installs, at module scope:
  1. the unified namespace `window.GM` if absent (lines 23-28);
  2. direct aliases (`log`, `info`, `error`, `warn`) onto `GM` (lines 188-200);
  3. polyfill bodies onto `window` for `GM_addStyle`, `GM_registerMenuCommand`,
     `GM_getResourceText` where the host left them undefined (lines 221-225);
  4. a promisifying forwarding wrapper on `GM` for every pair of the
     `promiseMappings` table whose legacy name is bound truthy on `window`
     and whose unified name is not already truthy on `GM` (lines 228-233).

The shallow embedding below models the two surfaces as string-keyed partial
maps into a `Value` type that records exactly what the adapter's guards
inspect (definedness, JS truthiness, and the provenance of installed
functions), and models the asynchronous helpers (`utils.promisify`,
`utils.waitForBody`, `GM_getResourceText`, `GM_registerMenuCommand`) as
executable functions over explicit behaviours of their callees.
-/

namespace GM4Polyfill

/-- JS values as far as the adapter's guards and installs distinguish them:
primitives carry only their truthiness, numbers and strings are kept exact
(JS: `0` and the empty string are falsy), and function values record where
they came from (a host-native function, a bound console method, one of the
adapter's polyfill bodies keyed by its legacy name, or a forwarding wrapper
capturing the legacy value `old` it closes over). -/
inductive Value where
  | prim (truthy : Bool)
  | num (n : Nat)
  | str (s : String)
  | obj (id : Nat)
  | hostFn (id : Nat)
  | consoleFn (meth : String)
  | polyfillFn (key : String)
  | wrapperFn (old : Value)
  deriving DecidableEq

/-- JS truthiness of a `Value`: objects and functions are truthy, `0` and
`""` are falsy, opaque primitives carry their truthiness. -/
def Value.truthy : Value → Bool
  | Value.prim b => b
  | Value.num n => n != 0
  | Value.str s => s != ""
  | Value.obj _ => true
  | Value.hostFn _ => true
  | Value.consoleFn _ => true
  | Value.polyfillFn _ => true
  | Value.wrapperFn _ => true

/-- A surface of named bindings (`window` globals, or the members of `GM`):
`none` models `typeof x === 'undefined'`. -/
abbrev Bindings : Type := String → Option Value

/-- The empty surface. -/
def emptyBindings : Bindings := fun _ => none

/-- Property assignment `m[k] = v`. -/
def setKey (m : Bindings) (k : String) (v : Value) : Bindings :=
  fun q => if q = k then some v else m q

/-- The JS truthiness test the install guards apply to a member access:
`m[k]` is truthy iff the name is bound to a truthy value (an unbound name
reads as `undefined`, which is falsy). -/
def truthyAt (m : Bindings) (k : String) : Bool :=
  match m k with
  | some v => v.truthy
  | none => false

theorem setKey_self (m : Bindings) (k : String) (v : Value) : setKey m k v k = some v := by
  simp [setKey]

theorem setKey_other (m : Bindings) (k q : String) (v : Value) (h : q ≠ k) :
    setKey m k v q = m q := by
  simp [setKey, h]

theorem truthyAt_setKey_self (m : Bindings) (k : String) (v : Value) :
    truthyAt (setKey m k v) k = v.truthy := by
  simp [truthyAt, setKey_self]

theorem truthyAt_setKey_other (m : Bindings) (k q : String) (v : Value) (h : q ≠ k) :
    truthyAt (setKey m k v) q = truthyAt m q := by
  simp [truthyAt, setKey_other m k q v h]

/-! ### The static tables (lines 188-193, 203-218, and the `polyfills`
object keys, lines 104-185) -/

/-- `console.log.bind(console)` (line 189); a fresh bound function object,
always truthy. -/
def consoleLogBound : Value := Value.consoleFn "log"

/-- `console.error.bind(console)` (line 191). -/
def consoleErrorBound : Value := Value.consoleFn "error"

/-- `console.warn.bind(console)` (line 192). -/
def consoleWarnBound : Value := Value.consoleFn "warn"

/-- The `directMappings` object (lines 188-193), as the ordered list of
(unified-name, value) entries `Object.entries` iterates. The `info` entry
is the ambient `GM_info` global, a parameter of the model. -/
def directMappings (info : Value) : List (String × Value) :=
  [("log", consoleLogBound), ("info", info), ("error", consoleErrorBound),
   ("warn", consoleWarnBound)]

/-- The keys of the `polyfills` object (lines 104-185), in declaration
order. -/
def polyfillKeys : List String :=
  ["GM_addStyle", "GM_registerMenuCommand", "GM_getResourceText"]

/-- The `promiseMappings` table (lines 203-218): ordered
(legacy-name, unified-name) pairs. -/
def promiseMappings : List (String × String) :=
  [("GM_addStyle", "addStyle"),
   ("GM_deleteValue", "deleteValue"),
   ("GM_getResourceURL", "getResourceUrl"),
   ("GM_getValue", "getValue"),
   ("GM_listValues", "listValues"),
   ("GM_notification", "notification"),
   ("GM_openInTab", "openInTab"),
   ("GM_registerMenuCommand", "registerMenuCommand"),
   ("GM_setClipboard", "setClipboard"),
   ("GM_setValue", "setValue"),
   ("GM_xmlhttpRequest", "xmlHttpRequest"),
   ("GM_getResourceText", "getResourceText"),
   ("GM_download", "download"),
   ("GM_cookie", "cookie")]

/-- The fresh `GM` object created at lines 24-27 when `window.GM` is
absent: `info` is `GM_info || \x7b\x7d` and `version` is `'4.0.0'`. -/
def initGM (info : Value) : Bindings :=
  setKey (setKey emptyBindings "info" (if info.truthy then info else Value.obj 0))
    "version" (Value.str "4.0.0")

/-! ### The three install loops -/

/-- The direct-mapping install loop (lines 196-200):
`if (old && !GM[newKey]) GM[newKey] = old`, folded left over the table. -/
def applyDirectList (l : List (String × Value)) (g : Bindings) : Bindings :=
  match l with
  | [] => g
  | p :: t =>
      applyDirectList t
        (if p.2.truthy && !(truthyAt g p.1) then setKey g p.1 p.2 else g)

/-- The polyfill install loop (lines 221-225):
`if (typeof window[key] === 'undefined') window[key] = implementation`. -/
def applyPolyfillList (l : List String) (w : Bindings) : Bindings :=
  match l with
  | [] => w
  | k :: t =>
      applyPolyfillList t
        (if (w k).isNone then setKey w k (Value.polyfillFn k) else w)

/-- The legacy-to-promise forwarding loop (lines 228-233):
`const old = window[oldKey]; if (old && !GM[newKey])
GM[newKey] = (...args) => utils.promisify(old, ...args)`.
The installed wrapper is recorded as `Value.wrapperFn old`, capturing the
legacy value read at install time. -/
def applyPromiseList (w : Bindings) (l : List (String × String)) (g : Bindings) : Bindings :=
  match l with
  | [] => g
  | p :: t =>
      applyPromiseList w t
        (match w p.1 with
         | some old =>
             if old.truthy && !(truthyAt g p.2) then
               setKey g p.2 (Value.wrapperFn old)
             else g
         | none => g)

/-- Whole-page state the installer reads and writes: the `window` globals
(the legacy surface, `GM_*` names), the `window.GM` object if present, and
the ambient `GM_info` global. -/
structure State where
  window : Bindings
  gm : Option Bindings
  gm_info : Value

/-- Member access `GM[k]` (reads `undefined` when `GM` itself is absent,
which no code path does after step 1 has run). -/
def gmAt (s : State) (k : String) : Option Value :=
  match s.gm with
  | some g => g k
  | none => none

/-- Truthiness of `GM[k]` in state `s`. -/
def gmTruthy (s : State) (k : String) : Bool :=
  match gmAt s k with
  | some v => v.truthy
  | none => false

/-- Step 1 result (lines 23-28): the `GM` object after the existence
guard. -/
def installGM0 (s : State) : Bindings :=
  match s.gm with
  | some g => g
  | none => initGM s.gm_info

/-- Step 2 result (lines 196-200): `GM` after the direct-mapping loop. -/
def installGM1 (s : State) : Bindings :=
  applyDirectList (directMappings s.gm_info) (installGM0 s)

/-- Step 3 result (lines 221-225): `window` after the polyfill loop. -/
def installWindow (s : State) : Bindings :=
  applyPolyfillList polyfillKeys s.window

/-- Step 4 result (lines 228-233): `GM` after the forwarding loop, which
reads the legacy surface as left by step 3. -/
def installGM2 (s : State) : Bindings :=
  applyPromiseList (installWindow s) promiseMappings (installGM1 s)

/-- The whole module-scope installation (the IIFE body, lines 19-234). -/
def install (s : State) : State :=
  ⟨installWindow s, some (installGM2 s), s.gm_info⟩

/-! ### Generic lemmas about the direct-mapping loop -/

theorem applyDirectList_preserve (l : List (String × Value)) (g : Bindings) (k : String)
    (h : truthyAt g k = true) :
    applyDirectList l g k = g k ∧ truthyAt (applyDirectList l g) k = true := by
  induction l generalizing g with
  | nil => exact ⟨rfl, h⟩
  | cons p t ih =>
    by_cases hk : p.1 = k
    · have hguard : (p.2.truthy && !(truthyAt g p.1)) = false := by
        rw [hk, h]; simp
      simpa [applyDirectList, hguard] using ih g h
    · by_cases hc : (p.2.truthy && !(truthyAt g p.1)) = true
      · have hk' : k ≠ p.1 := fun hkk => hk hkk.symm
        have hval : setKey g p.1 p.2 k = g k := setKey_other g p.1 k p.2 hk'
        have htr : truthyAt (setKey g p.1 p.2) k = true := by
          rw [truthyAt_setKey_other g p.1 k p.2 hk']; exact h
        have := ih (setKey g p.1 p.2) htr
        simpa [applyDirectList, hc, hval] using this
      · have hc' : (p.2.truthy && !(truthyAt g p.1)) = false := by
          revert hc; cases p.2.truthy && !(truthyAt g p.1) <;> simp
        simpa [applyDirectList, hc'] using ih g h

theorem applyDirectList_establish (l : List (String × Value)) (g : Bindings)
    (k : String) (v : Value) (hmem : (k, v) ∈ l) (hv : v.truthy = true) :
    truthyAt (applyDirectList l g) k = true := by
  induction l generalizing g with
  | nil => cases hmem
  | cons p t ih =>
    rcases List.mem_cons.mp hmem with heq | htail
    · have hk : p.1 = k := by rw [← heq]
      have hv2 : p.2.truthy = true := by rw [← heq]; exact hv
      by_cases hc : (p.2.truthy && !(truthyAt g p.1)) = true
      · have : truthyAt (setKey g p.1 p.2) k = true := by
          rw [← hk, truthyAt_setKey_self]; exact hv2
        simpa [applyDirectList, hc] using (applyDirectList_preserve t (setKey g p.1 p.2) k this).2
      · have hgt : truthyAt g k = true := by
          revert hc; rw [hv2, hk]; cases htk : truthyAt g k <;> simp
        have hc' : (p.2.truthy && !(truthyAt g p.1)) = false := by
          revert hc; cases p.2.truthy && !(truthyAt g p.1) <;> simp
        simpa [applyDirectList, hc'] using (applyDirectList_preserve t g k hgt).2
    · by_cases hc : (p.2.truthy && !(truthyAt g p.1)) = true <;>
        simp only [applyDirectList] <;> split <;> exact ih _ htail

theorem applyDirectList_noop (l : List (String × Value)) (g : Bindings)
    (h : ∀ p ∈ l, p.2.truthy = true → truthyAt g p.1 = true) :
    applyDirectList l g = g := by
  induction l with
  | nil => rfl
  | cons p t ih =>
    have hc : (p.2.truthy && !(truthyAt g p.1)) = false := by
      by_cases hv : p.2.truthy = true
      · rw [hv, h p (List.mem_cons_self p t) hv]; simp
      · have : p.2.truthy = false := by revert hv; cases p.2.truthy <;> simp
        rw [this]; simp
    have := ih fun q hq => h q (List.mem_cons_of_mem p hq)
    simpa [applyDirectList, hc] using this

theorem applyDirectList_untouched (l : List (String × Value)) (g : Bindings) (k : String)
    (h : ∀ p ∈ l, p.1 ≠ k) :
    applyDirectList l g k = g k := by
  induction l generalizing g with
  | nil => rfl
  | cons p t ih =>
    have hk : k ≠ p.1 := fun hkk => h p (List.mem_cons_self p t) hkk.symm
    have ht : ∀ q ∈ t, q.1 ≠ k := fun q hq => h q (List.mem_cons_of_mem p hq)
    by_cases hc : (p.2.truthy && !(truthyAt g p.1)) = true
    · have := ih (setKey g p.1 p.2)
      simp only [applyDirectList, hc, if_true]
      rw [ih (setKey g p.1 p.2) ht, setKey_other g p.1 k p.2 hk]
    · have hc' : (p.2.truthy && !(truthyAt g p.1)) = false := by
        revert hc; cases p.2.truthy && !(truthyAt g p.1) <;> simp
      simpa [applyDirectList, hc'] using ih g ht

/-! ### Generic lemmas about the polyfill loop -/

theorem applyPolyfillList_preserve (l : List String) (w : Bindings) (k : String) (v : Value)
    (h : w k = some v) :
    applyPolyfillList l w k = some v := by
  induction l generalizing w with
  | nil => exact h
  | cons q t ih =>
    by_cases hq : q = k
    · have : (w q).isNone = false := by rw [hq, h]; rfl
      simpa [applyPolyfillList, this] using ih w h
    · by_cases hn : (w q).isNone = true
      · have hk : k ≠ q := fun hkk => hq hkk.symm
        have : setKey w q (Value.polyfillFn q) k = some v := by
          rw [setKey_other w q k _ hk]; exact h
        simpa [applyPolyfillList, hn] using ih _ this
      · have hn' : (w q).isNone = false := by
          revert hn; cases (w q).isNone <;> simp
        simpa [applyPolyfillList, hn'] using ih w h

theorem applyPolyfillList_defined (l : List String) (w : Bindings) (k : String)
    (h : k ∈ l) :
    (applyPolyfillList l w k).isSome = true := by
  induction l generalizing w with
  | nil => cases h
  | cons q t ih =>
    by_cases hq : q = k
    · subst hq
      by_cases hn : (w q).isNone = true
      · have : setKey w q (Value.polyfillFn q) q = some (Value.polyfillFn q) :=
          setKey_self w q _
        simp only [applyPolyfillList, hn, if_true]
        rw [applyPolyfillList_preserve t _ q _ this]; rfl
      · have hn' : (w q).isNone = false := by
          revert hn; cases (w q).isNone <;> simp
        obtain ⟨v, hv⟩ : ∃ v, w q = some v := by
          revert hn'; cases w q <;> simp
        simp only [applyPolyfillList, hn', Bool.false_eq_true, if_false]
        rw [applyPolyfillList_preserve t w q v hv]; rfl
    · have ht : k ∈ t := by
        rcases List.mem_cons.mp h with heq | htail
        · exact absurd heq.symm hq
        · exact htail
      by_cases hn : (w q).isNone = true <;> simp only [applyPolyfillList] <;> split <;>
        exact ih _ ht

theorem applyPolyfillList_noop (l : List String) (w : Bindings)
    (h : ∀ k ∈ l, (w k).isSome = true) :
    applyPolyfillList l w = w := by
  induction l with
  | nil => rfl
  | cons q t ih =>
    have hn : (w q).isNone = false := by
      have := h q (List.mem_cons_self q t)
      revert this; cases w q <;> simp
    have := ih fun k hk => h k (List.mem_cons_of_mem q hk)
    simpa [applyPolyfillList, hn] using this

theorem applyPolyfillList_writes (l : List String) (w : Bindings) (k : String)
    (hnd : l.Nodup) (hmem : k ∈ l) (h : w k = none) :
    applyPolyfillList l w k = some (Value.polyfillFn k) := by
  induction l generalizing w with
  | nil => cases hmem
  | cons q t ih =>
    rcases List.mem_cons.mp hmem with heq | htail
    · subst heq
      have hn : (w k).isNone = true := by rw [h]; rfl
      simp only [applyPolyfillList, hn, if_true]
      exact applyPolyfillList_preserve t _ k _ (setKey_self w k _)
    · have hq : q ≠ k := by
        intro hqq
        exact (List.nodup_cons.mp hnd).1 (hqq ▸ htail)
      have hk : k ≠ q := fun hkk => hq hkk.symm
      have hnd' : t.Nodup := (List.nodup_cons.mp hnd).2
      by_cases hn : (w q).isNone = true
      · have : setKey w q (Value.polyfillFn q) k = none := by
          rw [setKey_other w q k _ hk]; exact h
        simpa [applyPolyfillList, hn] using ih _ hnd' htail this
      · have hn' : (w q).isNone = false := by
          revert hn; cases (w q).isNone <;> simp
        simpa [applyPolyfillList, hn'] using ih w hnd' htail h

/-! ### Generic lemmas about the forwarding loop -/

theorem applyPromiseList_preserve (w : Bindings) (l : List (String × String)) (g : Bindings)
    (k : String) (h : truthyAt g k = true) :
    applyPromiseList w l g k = g k ∧ truthyAt (applyPromiseList w l g) k = true := by
  induction l generalizing g with
  | nil => exact ⟨rfl, h⟩
  | cons p t ih =>
    cases hw : w p.1 with
    | none => simpa [applyPromiseList, hw] using ih g h
    | some old =>
      by_cases hc : (old.truthy && !(truthyAt g p.2)) = true
      · have hk : p.2 ≠ k := by
          intro hpk
          have hpt : truthyAt g p.2 = true := by rw [hpk]; exact h
          rw [hpt] at hc; simp at hc
        have hk' : k ≠ p.2 := fun hkk => hk hkk.symm
        have hval : setKey g p.2 (Value.wrapperFn old) k = g k :=
          setKey_other g p.2 k _ hk'
        have htr : truthyAt (setKey g p.2 (Value.wrapperFn old)) k = true := by
          rw [truthyAt_setKey_other g p.2 k _ hk']; exact h
        have := ih _ htr
        simpa [applyPromiseList, hw, hc, hval] using this
      · have hc' : (old.truthy && !(truthyAt g p.2)) = false := by
          revert hc; cases old.truthy && !(truthyAt g p.2) <;> simp
        simpa [applyPromiseList, hw, hc'] using ih g h

theorem applyPromiseList_establish (w : Bindings) (l : List (String × String)) (g : Bindings)
    (o n : String) (v : Value) (hmem : (o, n) ∈ l) (hw : w o = some v)
    (hv : v.truthy = true) :
    truthyAt (applyPromiseList w l g) n = true := by
  induction l generalizing g with
  | nil => cases hmem
  | cons p t ih =>
    rcases List.mem_cons.mp hmem with heq | htail
    · have h1 : p.1 = o := by rw [← heq]
      have h2 : p.2 = n := by rw [← heq]
      cases hwp : w p.1 with
      | none => rw [h1, hw] at hwp; cases hwp
      | some old =>
        have hold : old = v := by rw [h1, hw] at hwp; exact (Option.some.inj hwp).symm
        by_cases hc : (old.truthy && !(truthyAt g p.2)) = true
        · have : truthyAt (setKey g p.2 (Value.wrapperFn old)) n = true := by
            rw [← h2, truthyAt_setKey_self]; rfl
          simpa [applyPromiseList, hwp, hc] using
            (applyPromiseList_preserve w t _ n this).2
        · have hgt : truthyAt g n = true := by
            revert hc; rw [hold, hv, h2]; cases htn : truthyAt g n <;> simp
          have hc' : (old.truthy && !(truthyAt g p.2)) = false := by
            revert hc; cases old.truthy && !(truthyAt g p.2) <;> simp
          simpa [applyPromiseList, hwp, hc'] using
            (applyPromiseList_preserve w t g n hgt).2
    · cases hwp : w p.1 with
      | none => simpa [applyPromiseList, hwp] using ih _ htail
      | some old =>
        by_cases hc : (old.truthy && !(truthyAt g p.2)) = true <;>
          simp only [applyPromiseList, hwp] <;> split <;> exact ih _ htail

theorem applyPromiseList_noop (w : Bindings) (l : List (String × String)) (g : Bindings)
    (h : ∀ p ∈ l, ∀ v, w p.1 = some v → v.truthy = true → truthyAt g p.2 = true) :
    applyPromiseList w l g = g := by
  induction l with
  | nil => rfl
  | cons p t ih =>
    have ht := ih fun q hq => h q (List.mem_cons_of_mem p hq)
    cases hwp : w p.1 with
    | none => simpa [applyPromiseList, hwp] using ht
    | some old =>
      have hc : (old.truthy && !(truthyAt g p.2)) = false := by
        by_cases hv : old.truthy = true
        · rw [hv, h p (List.mem_cons_self p t) old hwp hv]; simp
        · have : old.truthy = false := by revert hv; cases old.truthy <;> simp
          rw [this]; simp
      simpa [applyPromiseList, hwp, hc] using ht

theorem applyPromiseList_untouched (w : Bindings) (l : List (String × String)) (g : Bindings)
    (k : String) (h : ∀ p ∈ l, p.2 ≠ k) :
    applyPromiseList w l g k = g k := by
  induction l generalizing g with
  | nil => rfl
  | cons p t ih =>
    have hk : k ≠ p.2 := fun hkk => h p (List.mem_cons_self p t) hkk.symm
    have ht : ∀ q ∈ t, q.2 ≠ k := fun q hq => h q (List.mem_cons_of_mem p hq)
    cases hwp : w p.1 with
    | none => simpa [applyPromiseList, hwp] using ih g ht
    | some old =>
      by_cases hc : (old.truthy && !(truthyAt g p.2)) = true
      · simp only [applyPromiseList, hwp, hc, if_true]
        rw [ih _ ht, setKey_other g p.2 k _ hk]
      · have hc' : (old.truthy && !(truthyAt g p.2)) = false := by
          revert hc; cases old.truthy && !(truthyAt g p.2) <;> simp
        simpa [applyPromiseList, hwp, hc'] using ih g ht

theorem applyPromiseList_provenance (w : Bindings) (l : List (String × String))
    (g : Bindings) (k : String) :
    applyPromiseList w l g k = g k ∨
      ∃ p, p ∈ l ∧ p.2 = k ∧ ∃ v, w p.1 = some v ∧ v.truthy = true := by
  induction l generalizing g with
  | nil => exact Or.inl rfl
  | cons p t ih =>
    cases hwp : w p.1 with
    | none =>
      rcases ih g with h | ⟨q, hq, hk, hv⟩
      · left; simpa [applyPromiseList, hwp] using h
      · right; exact ⟨q, List.mem_cons_of_mem p hq, hk, hv⟩
    | some old =>
      by_cases hc : (old.truthy && !(truthyAt g p.2)) = true
      · by_cases hk : p.2 = k
        · right
          have hot : old.truthy = true := by
            revert hc; cases old.truthy <;> simp
          exact ⟨p, List.mem_cons_self p t, hk, old, hwp, hot⟩
        · have hk' : k ≠ p.2 := fun hkk => hk hkk.symm
          rcases ih (setKey g p.2 (Value.wrapperFn old)) with h | ⟨q, hq, hqk, hv⟩
          · left
            simp only [applyPromiseList, hwp, hc, if_true]
            rw [h, setKey_other g p.2 k _ hk']
          · right; exact ⟨q, List.mem_cons_of_mem p hq, hqk, hv⟩
      · have hc' : (old.truthy && !(truthyAt g p.2)) = false := by
          revert hc; cases old.truthy && !(truthyAt g p.2) <;> simp
        rcases ih g with h | ⟨q, hq, hk, hv⟩
        · left; simpa [applyPromiseList, hwp, hc'] using h
        · right; exact ⟨q, List.mem_cons_of_mem p hq, hk, hv⟩

theorem applyPromiseList_writes (w : Bindings) (l : List (String × String)) (g : Bindings)
    (o n : String) (v : Value) (hnd : (l.map Prod.snd).Nodup) (hmem : (o, n) ∈ l)
    (hw : w o = some v) (hv : v.truthy = true) (hg : truthyAt g n = false) :
    applyPromiseList w l g n = some (Value.wrapperFn v) := by
  induction l generalizing g with
  | nil => cases hmem
  | cons p t ih =>
    have hnd' : (t.map Prod.snd).Nodup := (List.nodup_cons.mp (by simpa using hnd)).2
    have hhead : p.2 ∉ t.map Prod.snd := (List.nodup_cons.mp (by simpa using hnd)).1
    rcases List.mem_cons.mp hmem with heq | htail
    · have h1 : p.1 = o := by rw [← heq]
      have h2 : p.2 = n := by rw [← heq]
      cases hwp : w p.1 with
      | none => rw [h1, hw] at hwp; cases hwp
      | some old =>
        have hold : old = v := by rw [h1, hw] at hwp; exact (Option.some.inj hwp).symm
        have hc : (old.truthy && !(truthyAt g p.2)) = true := by
          rw [hold, hv, h2, hg]; rfl
        have hnone : ∀ q ∈ t, q.2 ≠ n := by
          intro q hq hqn
          refine hhead ?_
          rw [h2, ← hqn]
          exact List.mem_map_of_mem Prod.snd hq
        simp only [applyPromiseList, hwp, hc, if_true]
        rw [applyPromiseList_untouched w t _ n hnone, ← h2, hold, setKey_self]
    · have hneq : p.2 ≠ n := by
        intro hpn
        refine hhead ?_
        rw [hpn]
        have : (o, n).2 ∈ t.map Prod.snd := List.mem_map_of_mem Prod.snd htail
        exact this
      have hn' : n ≠ p.2 := fun hkk => hneq hkk.symm
      cases hwp : w p.1 with
      | none => simpa [applyPromiseList, hwp] using ih g hnd' htail hg
      | some old =>
        by_cases hc : (old.truthy && !(truthyAt g p.2)) = true
        · have hg' : truthyAt (setKey g p.2 (Value.wrapperFn old)) n = false := by
            rw [truthyAt_setKey_other g p.2 n _ hn']; exact hg
          simpa [applyPromiseList, hwp, hc] using ih _ hnd' htail hg'
        · have hc' : (old.truthy && !(truthyAt g p.2)) = false := by
            revert hc; cases old.truthy && !(truthyAt g p.2) <;> simp
          simpa [applyPromiseList, hwp, hc'] using ih g hnd' htail hg

/-- Entries of a pair list with pairwise-distinct second components are
determined by their second component. -/
theorem snd_inj_of_nodup_map (l : List (String × String))
    (hnd : (l.map Prod.snd).Nodup) :
    ∀ p ∈ l, ∀ q ∈ l, p.2 = q.2 → p = q := by
  induction l with
  | nil => intro p hp; cases hp
  | cons a t ih =>
    have hnd' : (t.map Prod.snd).Nodup := (List.nodup_cons.mp (by simpa using hnd)).2
    have hhead : a.2 ∉ t.map Prod.snd := (List.nodup_cons.mp (by simpa using hnd)).1
    intro p hp q hq hpq
    rcases List.mem_cons.mp hp with hp1 | hp2 <;> rcases List.mem_cons.mp hq with hq1 | hq2
    · rw [hp1, hq1]
    · exfalso
      refine hhead ?_
      rw [show a.2 = q.2 by rw [← hp1, hpq]]
      exact List.mem_map_of_mem Prod.snd hq2
    · exfalso
      refine hhead ?_
      rw [show a.2 = p.2 by rw [← hq1, ← hpq]]
      exact List.mem_map_of_mem Prod.snd hp2
    · exact ih hnd' p hp2 q hq2 hpq

theorem truthyAt_congr (m m' : Bindings) (k : String) (h : m k = m' k) :
    truthyAt m k = truthyAt m' k := by
  simp only [truthyAt, h]

/-! ### Claim theorems about the installer -/

/-- C3: running the whole installation a second time, starting from the
state left by the first run, leaves both the unified namespace and the
legacy surface exactly as the first run left them: the `window.GM`
existence guard, the `typeof === 'undefined'` guard of the polyfill loop,
and the truthiness guards of the two mapping loops all fail on every entry
the first run has already settled, so no entry is wrapped a second time
and none is replaced. -/
theorem C3_install_idempotent (s : State) : install (install s) = install s := by
  have hwin : installWindow (install s) = installWindow s := by
    show applyPolyfillList polyfillKeys (installWindow s) = installWindow s
    exact applyPolyfillList_noop _ _ fun k hk =>
      applyPolyfillList_defined polyfillKeys s.window k hk
  have hgm0 : installGM0 (install s) = installGM2 s := rfl
  have hinfo : (install s).gm_info = s.gm_info := rfl
  have hdir : installGM1 (install s) = installGM2 s := by
    show applyDirectList (directMappings (install s).gm_info) (installGM0 (install s)) =
      installGM2 s
    rw [hinfo, hgm0]
    refine applyDirectList_noop _ _ fun p hp hv => ?_
    have h1 : truthyAt (installGM1 s) p.1 = true :=
      applyDirectList_establish _ _ p.1 p.2 hp hv
    exact (applyPromiseList_preserve (installWindow s) promiseMappings (installGM1 s)
      p.1 h1).2
  have hprom : installGM2 (install s) = installGM2 s := by
    show applyPromiseList (installWindow (install s)) promiseMappings
      (installGM1 (install s)) = installGM2 s
    rw [hwin, hdir]
    refine applyPromiseList_noop _ _ _ fun p hp v hw hv => ?_
    exact applyPromiseList_establish (installWindow s) promiseMappings (installGM1 s)
      p.1 p.2 v hp hw hv
  show (⟨installWindow (install s), some (installGM2 (install s)),
    (install s).gm_info⟩ : State) = install s
  rw [hwin, hprom, hinfo]
  rfl

/-- C2 amended claim: installation never overwrites a defined binding on
the legacy surface, nor a truthy binding on the unified namespace. (The
claim as frozen fails for a falsy pre-seeded GM sentinel, see the
counterexample below: the GM-side guards test truthiness, not presence.) -/
theorem C2_install_preserves_defined_window_and_truthy_gm (s : State) (k : String)
    (v : Value) :
    (s.window k = some v → (install s).window k = some v) ∧
    (gmAt s k = some v → v.truthy = true → gmAt (install s) k = some v) := by
  constructor
  · intro h
    exact applyPolyfillList_preserve polyfillKeys s.window k v h
  · intro h hv
    cases hg : s.gm with
    | none => simp [gmAt, hg] at h
    | some g =>
      simp only [gmAt, hg] at h
      have h0 : installGM0 s = g := by simp [installGM0, hg]
      have ht : truthyAt g k = true := by simp [truthyAt, h, hv]
      have hd := applyDirectList_preserve (directMappings s.gm_info) g k ht
      have h1v : installGM1 s k = g k := by rw [installGM1, h0]; exact hd.1
      have h1t : truthyAt (installGM1 s) k = true := by rw [installGM1, h0]; exact hd.2
      have hp := applyPromiseList_preserve (installWindow s) promiseMappings
        (installGM1 s) k h1t
      show installGM2 s k = some v
      rw [installGM2, hp.1, h1v, h]

/-- State with a falsy sentinel pre-seeded on `GM.addStyle` while the host
provides `window.GM_addStyle`. -/
def sentinelState : State :=
  ⟨setKey emptyBindings "GM_addStyle" (Value.hostFn 0),
   some (setKey emptyBindings "addStyle" (Value.prim false)),
   Value.obj 1⟩

/-- C2 counterexample: a pre-seeded falsy sentinel on `GM.addStyle` does
NOT survive installation — the forwarding loop's `!GM[newKey]` guard reads
the falsy sentinel as absent and replaces it with a wrapper, so the claim
"the binding after installation is identical to the binding before, for
every name already bound" is false as stated. -/
theorem C2_falsy_sentinel_overwritten :
    gmAt sentinelState "addStyle" = some (Value.prim false) ∧
    gmAt (install sentinelState) "addStyle" = some (Value.wrapperFn (Value.hostFn 0)) ∧
    gmAt (install sentinelState) "addStyle" ≠ gmAt sentinelState "addStyle" := by
  refine ⟨rfl, by decide, by decide⟩

/-- State with truthy host-native bindings on both surfaces. -/
def nativeState : State :=
  ⟨setKey emptyBindings "GM_getValue" (Value.hostFn 3),
   some (setKey emptyBindings "getValue" (Value.hostFn 4)),
   Value.obj 1⟩

/-- Witness for the amended C2 at a concrete state: a defined legacy
binding and a truthy unified binding both survive installation. -/
theorem C2_preservation_witness :
    (install nativeState).window "GM_getValue" = some (Value.hostFn 3) ∧
    gmAt (install nativeState) "getValue" = some (Value.hostFn 4) :=
  ⟨(C2_install_preserves_defined_window_and_truthy_gm nativeState "GM_getValue"
      (Value.hostFn 3)).1 rfl,
   (C2_install_preserves_defined_window_and_truthy_gm nativeState "getValue"
      (Value.hostFn 4)).2 rfl rfl⟩

/-- The three promise-mapping pairs whose legacy side has a polyfill body. -/
def polyfillForwardPairs : List (String × String) :=
  [("GM_addStyle", "addStyle"),
   ("GM_registerMenuCommand", "registerMenuCommand"),
   ("GM_getResourceText", "getResourceText")]

/-- C8 amended claim: because the polyfill loop (lines 221-225) runs before
the forwarding loop (lines 228-233), a legacy name the host left undefined
but for which a polyfill exists ends up, whenever the paired unified name
is not already truthy on GM, bound on GM to a forwarding wrapper that
captures the polyfill body. (The frozen claim omits the GM-side absence
condition; the counterexample below shows it is needed.) -/
theorem C8_polyfill_wrapped_when_gm_lacks_name (s : State) (o n : String)
    (hp : (o, n) ∈ polyfillForwardPairs) (hw : s.window o = none)
    (hg : gmTruthy s n = false) :
    gmAt (install s) n = some (Value.wrapperFn (Value.polyfillFn o)) := by
  have hpm : (o, n) ∈ promiseMappings := by
    have h : ∀ p ∈ polyfillForwardPairs, p ∈ promiseMappings := by decide
    exact h (o, n) hp
  have hok : o ∈ polyfillKeys := by
    have h : ∀ p ∈ polyfillForwardPairs, p.1 ∈ polyfillKeys := by decide
    exact h (o, n) hp
  have hn5 : n ≠ "log" ∧ n ≠ "info" ∧ n ≠ "error" ∧ n ≠ "warn" ∧ n ≠ "version" := by
    have h : ∀ p ∈ polyfillForwardPairs, p.2 ≠ "log" ∧ p.2 ≠ "info" ∧ p.2 ≠ "error" ∧
        p.2 ≠ "warn" ∧ p.2 ≠ "version" := by decide
    exact h (o, n) hp
  have hdk : ∀ p ∈ directMappings s.gm_info, p.1 ≠ n := by
    intro p hpd
    simp only [directMappings, List.mem_cons, List.not_mem_nil, or_false] at hpd
    rcases hpd with h | h | h | h <;> rw [h] <;>
      first
        | exact fun hh => hn5.1 hh.symm
        | exact fun hh => hn5.2.1 hh.symm
        | exact fun hh => hn5.2.2.1 hh.symm
        | exact fun hh => hn5.2.2.2.1 hh.symm
  have h0 : truthyAt (installGM0 s) n = false := by
    cases hgm : s.gm with
    | none =>
      have hnone : installGM0 s n = none := by
        simp only [installGM0, hgm, initGM]
        rw [setKey_other _ _ _ _ hn5.2.2.2.2, setKey_other _ _ _ _ hn5.2.1]
        rfl
      simp [truthyAt, hnone]
    | some g =>
      have : truthyAt g n = false := by simpa [gmTruthy, gmAt, hgm, truthyAt] using hg
      simpa [installGM0, hgm] using this
  have h1 : truthyAt (installGM1 s) n = false := by
    have hu : installGM1 s n = installGM0 s n :=
      applyDirectList_untouched (directMappings s.gm_info) (installGM0 s) n hdk
    rw [truthyAt_congr (installGM1 s) (installGM0 s) n hu]
    exact h0
  have hwin : installWindow s o = some (Value.polyfillFn o) :=
    applyPolyfillList_writes polyfillKeys s.window o (by decide) hok hw
  show installGM2 s n = some (Value.wrapperFn (Value.polyfillFn o))
  exact applyPromiseList_writes (installWindow s) promiseMappings (installGM1 s) o n
    (Value.polyfillFn o) (by decide) hpm hwin rfl h1

/-- State where GM natively provides `addStyle` while the host leaves
`window.GM_addStyle` undefined. -/
def preseededGMState : State :=
  ⟨emptyBindings, some (setKey emptyBindings "addStyle" (Value.hostFn 7)), Value.obj 0⟩

/-- C8 counterexample: the claim as frozen asserts a forwarding capability
for every polyfilled legacy name the host left undefined, with no condition
on GM; but when GM already has a native `addStyle`, the forwarding loop
skips it, and the unified name keeps the native function, not a wrapper of
the polyfill. -/
theorem C8_preseeded_native_not_forwarded :
    preseededGMState.window "GM_addStyle" = none ∧
    gmAt (install preseededGMState) "addStyle" = some (Value.hostFn 7) ∧
    some (Value.hostFn 7) ≠ some (Value.wrapperFn (Value.polyfillFn "GM_addStyle")) := by
  refine ⟨rfl, by decide, by decide⟩

/-- A fresh page: nothing on either surface. -/
def blankState : State := ⟨emptyBindings, none, Value.obj 0⟩

/-- Witness for the amended C8 at a fresh page: the polyfilled
`GM_addStyle` gets wrapped onto `GM.addStyle`. -/
theorem C8_polyfill_wrap_witness :
    gmAt (install blankState) "addStyle" =
      some (Value.wrapperFn (Value.polyfillFn "GM_addStyle")) :=
  C8_polyfill_wrapped_when_gm_lacks_name blankState "GM_addStyle" "addStyle"
    (by decide) rfl rfl

/-- C9: a legacy name bound to a defined-but-falsy value is left alone by
the polyfill loop (its `typeof` check sees a defined value) and produces no
forwarding capability (the forwarding guard needs a truthy legacy value),
so the paired unified name stays absent from GM. -/
theorem C9_falsy_legacy_not_forwarded (s : State) (o n : String) (v : Value)
    (hp : (o, n) ∈ promiseMappings) (hw : s.window o = some v) (hv : v.truthy = false)
    (hg : gmAt s n = none) :
    (install s).window o = some v ∧ gmAt (install s) n = none := by
  have hn5 : n ≠ "log" ∧ n ≠ "info" ∧ n ≠ "error" ∧ n ≠ "warn" ∧ n ≠ "version" := by
    have h : ∀ p ∈ promiseMappings, p.2 ≠ "log" ∧ p.2 ≠ "info" ∧ p.2 ≠ "error" ∧
        p.2 ≠ "warn" ∧ p.2 ≠ "version" := by decide
    exact h (o, n) hp
  have hdk : ∀ p ∈ directMappings s.gm_info, p.1 ≠ n := by
    intro p hpd
    simp only [directMappings, List.mem_cons, List.not_mem_nil, or_false] at hpd
    rcases hpd with h | h | h | h <;> rw [h] <;>
      first
        | exact fun hh => hn5.1 hh.symm
        | exact fun hh => hn5.2.1 hh.symm
        | exact fun hh => hn5.2.2.1 hh.symm
        | exact fun hh => hn5.2.2.2.1 hh.symm
  constructor
  · exact applyPolyfillList_preserve polyfillKeys s.window o v hw
  · have h0 : installGM0 s n = none := by
      cases hgm : s.gm with
      | none =>
        simp only [installGM0, hgm, initGM]
        rw [setKey_other _ _ _ _ hn5.2.2.2.2, setKey_other _ _ _ _ hn5.2.1]
        rfl
      | some g =>
        simpa [installGM0, hgm, gmAt] using hg
    have h1 : installGM1 s n = none :=
      (applyDirectList_untouched (directMappings s.gm_info) (installGM0 s) n hdk).trans h0
    rcases applyPromiseList_provenance (installWindow s) promiseMappings (installGM1 s) n
      with hsame | ⟨p, hpm, hpn, u, hu, hut⟩
    · show installGM2 s n = none
      rw [installGM2, hsame]
      exact h1
    · exfalso
      have hpe : p = (o, n) :=
        snd_inj_of_nodup_map promiseMappings (by decide) p hpm (o, n) hp hpn
      subst hpe
      have huv : installWindow s o = some u := hu
      have hwo : installWindow s o = some v :=
        applyPolyfillList_preserve polyfillKeys s.window o v hw
      rw [hwo] at huv
      have huveq : u = v := (Option.some.inj huv).symm
      rw [huveq, hv] at hut
      cases hut

/-- State with `window.GM_setClipboard` bound to a falsy value. -/
def falsyLegacyState : State :=
  ⟨setKey emptyBindings "GM_setClipboard" (Value.prim false), none, Value.obj 0⟩

/-- Witness for C9 at a concrete state: the falsy legacy binding survives
and no `GM.setClipboard` appears. -/
theorem C9_falsy_witness :
    (install falsyLegacyState).window "GM_setClipboard" = some (Value.prim false) ∧
    gmAt (install falsyLegacyState) "setClipboard" = none :=
  C9_falsy_legacy_not_forwarded falsyLegacyState "GM_setClipboard" "setClipboard"
    (Value.prim false) (by decide) rfl rfl rfl

/-! ### The promisifying wrapper `utils.promisify` (lines 39-54)

`promisify(fn, timeout = 5000, ...args)` runs on a single-threaded event
loop: it calls `setTimeout` (arming a rejection timer), then synchronously
runs `fn.apply(this, args)`; on a synchronous return it calls
`clearTimeout` and `resolve(result)`, on a synchronous throw it calls
`clearTimeout` and `reject(error)`. A timer callback can only run after
the synchronous phase completes. When `result` is itself a promise
(every `async` polyfill returns one), `resolve(result)` locks the outer
promise to it — but `clearTimeout` has already run by then. -/

/-- Decidable equality for `Except`, used to evaluate the promise model
on concrete inputs. -/
instance exceptDecEq {e a : Type} [DecidableEq e] [DecidableEq a] :
    DecidableEq (Except e a) := fun x y =>
  match x, y with
  | Except.ok u, Except.ok v =>
      if h : u = v then isTrue (by rw [h]) else isFalse fun hc => h (Except.ok.inj hc)
  | Except.error u, Except.error v =>
      if h : u = v then isTrue (by rw [h]) else isFalse fun hc => h (Except.error.inj hc)
  | Except.ok _, Except.error _ => isFalse fun hc => Except.noConfusion hc
  | Except.error _, Except.ok _ => isFalse fun hc => Except.noConfusion hc

/-- The observable behaviour of one call of a JS function, as seen by
`promisify`: a synchronous throw, a synchronous plain return, a returned
promise that settles at a later event-loop time, or a returned promise
that never settles. -/
inductive CallResult where
  | throws (e : String)
  | returns (v : Value)
  | settlesLater (t : Nat) (r : Except String Value)
  | pendingForever
  deriving DecidableEq

/-- The state of the deferred result and of the timeout timer when the
synchronous phase of `promisify` finishes: whether the timer is still
armed, a settlement fixed synchronously (`resolve` of a plain value or
`reject` of a thrown error), and a thenable adopted by `resolve` (with its
eventual settlement time and outcome, or `none` when it never settles). -/
structure PromiseState where
  timerArmed : Bool
  settledSync : Option (Except String Value)
  adopted : Option (Option (Nat × Except String Value))
  deriving DecidableEq

/-- The state right after `setTimeout` at line 41: timer armed, nothing
settled. -/
def afterSetTimeout : PromiseState := ⟨true, none, none⟩

/-- `clearTimeout(timeoutId)` (lines 47 and 50). -/
def clearTimeoutPS (ps : PromiseState) : PromiseState :=
  ⟨false, ps.settledSync, ps.adopted⟩

/-- The synchronous phase of `promisify` (lines 40-53): arm the timer, run
`fn`, then on either branch clear the timer and settle (or adopt). -/
def promisifySync (call : CallResult) : PromiseState :=
  let ps0 := afterSetTimeout
  match call with
  | CallResult.returns v =>
      let ps1 := clearTimeoutPS ps0
      ⟨ps1.timerArmed, some (Except.ok v), none⟩
  | CallResult.settlesLater t r =>
      let ps1 := clearTimeoutPS ps0
      ⟨ps1.timerArmed, none, some (some (t, r))⟩
  | CallResult.pendingForever =>
      let ps1 := clearTimeoutPS ps0
      ⟨ps1.timerArmed, none, some none⟩
  | CallResult.throws e =>
      let ps1 := clearTimeoutPS ps0
      ⟨ps1.timerArmed, some (Except.error e), none⟩

/-- The timeout rejection message (line 42). -/
def timedOutMsg : String := "Operation timed out"

/-- Event-loop semantics of the deferred result after the synchronous
phase: a synchronous settlement wins at time 0; otherwise an armed timer
fires at `timeout` and rejects if the adopted thenable has not settled
strictly earlier; with no armed timer the deferred just follows the
thenable (or never settles). -/
def promiseFinalOutcome (timeout : Nat) (ps : PromiseState) :
    Option (Nat × Except String Value) :=
  match ps.settledSync with
  | some r => some (0, r)
  | none =>
    match ps.adopted with
    | some (some (t, r)) =>
        if ps.timerArmed && decide (timeout < t) then
          some (timeout, Except.error timedOutMsg)
        else some (t, r)
    | some none =>
        if ps.timerArmed then some (timeout, Except.error timedOutMsg) else none
    | none =>
        if ps.timerArmed then some (timeout, Except.error timedOutMsg) else none

/-- C4: evaluated at the failing input — a function that synchronously
returns a never-settling promise (e.g. an `async` polyfill awaiting a body
that never appears) with the default 5000 ms timeout. The code clears the
timer during the synchronous phase (conjunct 1), so the deferred never
settles and in particular never rejects with the timeout failure the claim
requires (conjunct 2); had the timer still been armed after the
synchronous phase, the timeout rejection would have fired (conjunct 3).
The synchronous-throw and plain-return clauses of the claim do hold
(conjuncts 4 and 5). -/
theorem C4_timeout_rejection_never_fires :
    (promisifySync CallResult.pendingForever).timerArmed = false ∧
    promiseFinalOutcome 5000 (promisifySync CallResult.pendingForever) = none ∧
    promiseFinalOutcome 5000 (⟨true, none, some none⟩ : PromiseState) =
      some (5000, Except.error timedOutMsg) ∧
    promiseFinalOutcome 5000 (promisifySync (CallResult.throws "boom")) =
      some (0, Except.error "boom") ∧
    promiseFinalOutcome 5000 (promisifySync (CallResult.returns (Value.num 42))) =
      some (0, Except.ok (Value.num 42)) := by
  decide

/-! ### The forwarding wrapper installed by the loop at lines 228-233

`GM[newKey] = (...args) => utils.promisify(old, ...args)`: the spread
passes the caller's FIRST argument into the `timeout` parameter slot of
`promisify(fn, timeout = 5000, ...args)`, and only the remaining arguments
reach `fn.apply(this, args)`. -/

/-- The `timeout = 5000` default of `promisify` (line 39), as the value
bound when the caller passes no argument. -/
def promisifyTimeoutDefault : Value := Value.num 5000

/-- One invocation of an installed forwarding wrapper with caller argument
list `args`: which value lands in the `timeout` slot, which argument list
reaches the legacy function, and the resulting promise state. `behavior`
gives the legacy entry point's result on each argument list. -/
structure ForwardingInvocation where
  timeoutArg : Value
  fnArgs : List Value
  state : PromiseState

/-- Invoke `GM[newKey](...args)` as installed by line 231. -/
def invokeForwarding (behavior : List Value → CallResult) (args : List Value) :
    ForwardingInvocation :=
  ⟨args.headD promisifyTimeoutDefault, args.drop 1,
   promisifySync (behavior (args.drop 1))⟩

/-- A legacy entry point whose result depends on its argument list (it
returns the number of arguments it received — e.g. a `GM_getValue` whose
result depends on the requested key). -/
def argCountingLegacyFn (args : List Value) : CallResult :=
  CallResult.returns (Value.num args.length)

/-- C1: evaluated at the failing input — the installed forwarding wrapper
invoked with the single-argument list `["key"]` passes `"key"` into the
`timeout` parameter of `promisify` and invokes the legacy entry point with
the EMPTY argument list, resolving with the legacy result for `[]`
(`num 0`), whereas invoking the legacy entry point directly with `["key"]`
returns `num 1`: the forwarded result differs from the direct result, so
forwarding does not preserve the argument list as the claim requires. -/
theorem C1_forwarding_drops_first_argument :
    (invokeForwarding argCountingLegacyFn [Value.str "key"]).fnArgs = [] ∧
    (invokeForwarding argCountingLegacyFn [Value.str "key"]).timeoutArg =
      Value.str "key" ∧
    promiseFinalOutcome 5000 (invokeForwarding argCountingLegacyFn [Value.str "key"]).state =
      some (0, Except.ok (Value.num 0)) ∧
    argCountingLegacyFn [Value.str "key"] = CallResult.returns (Value.num 1) ∧
    (Except.ok (Value.num 0) : Except String Value) ≠ Except.ok (Value.num 1) := by
  decide

/-! ### The DOM-readiness waiter `utils.waitForBody` (lines 61-87)

If `document.body` exists at call time the promise resolves immediately
(before `setTimeout` runs, so no timer and no observer). Otherwise a
rejection timer is armed for `timeout` ms and a `MutationObserver` is
created; the observer is attached to `document.documentElement` ONLY when
`document.readyState === 'loading'` and the root element exists (lines
80-85). If attached, the observer callback fires on the mutation that adds
the body, clears the timer, disconnects itself and resolves; if the body
has not been observed before the deadline the timer callback disconnects
the observer and rejects. -/

/-- A document as far as the waiter can observe it: the event-loop time at
which `document.body` first exists (`some 0` means it exists at call time,
`none` means it never appears), whether `document.readyState` is
`'loading'` at call time, and whether `document.documentElement` exists. -/
structure DocState where
  bodyAt : Option Nat
  readyLoading : Bool
  docElem : Bool
  deriving DecidableEq

/-- `document.body` truthiness at call time (line 63). -/
def bodyPresentAtCall (doc : DocState) : Bool := doc.bodyAt == some 0

/-- How a `waitForBody` promise settles: resolution with the body at an
event-loop time, or rejection with a message at a time. The canonical
variant always settles: the timer is armed in every non-immediate path. -/
inductive WaitOutcome where
  | resolvedBody (t : Nat)
  | rejected (t : Nat) (msg : String)
  deriving DecidableEq

/-- What one `waitForBody` call did: whether the rejection timer was set,
whether `observer.observe` was called, whether `observer.disconnect()` was
called, and how the promise settles. -/
structure WaitResult where
  timerSet : Bool
  observerRegistered : Bool
  disconnectCalled : Bool
  outcome : WaitOutcome
  deriving DecidableEq

/-- The rejection message of the body timeout (line 69). -/
def timeoutBodyMsg : String := "Timeout waiting for body"

/-- `utils.waitForBody(timeout)` (lines 61-87). -/
def waitForBody (timeout : Nat) (doc : DocState) : WaitResult :=
  if bodyPresentAtCall doc then
    ⟨false, false, false, WaitOutcome.resolvedBody 0⟩
  else
    if doc.readyLoading && doc.docElem then
      match doc.bodyAt with
      | some t =>
          if t < timeout then ⟨true, true, true, WaitOutcome.resolvedBody t⟩
          else ⟨true, true, true, WaitOutcome.rejected timeout timeoutBodyMsg⟩
      | none => ⟨true, true, true, WaitOutcome.rejected timeout timeoutBodyMsg⟩
    else ⟨true, false, true, WaitOutcome.rejected timeout timeoutBodyMsg⟩

/-- The `timeout = 10000` default of `waitForBody` (line 61). -/
def waitForBodyDefaultTimeout : Nat := 10000

/-- `utils.waitForBody()` as called with no argument (line 126). -/
def waitForBodyDefault (doc : DocState) : WaitResult :=
  waitForBody waitForBodyDefaultTimeout doc

/-- A document with the body appearing at time 5 while `readyState` is no
longer `'loading'`. -/
def lateDoc : DocState := ⟨some 5, false, true⟩

/-- C6 counterexample: the claim as frozen says that whenever the body is
absent at call time the waiter resolves the first time the body appears;
but with `readyState` not `'loading'` no observer is ever attached (lines
80-85), so even though the body appears at time 5 the waiter rejects at
the 10000 ms deadline instead of resolving. -/
theorem C6_body_appearance_missed :
    bodyPresentAtCall lateDoc = false ∧
    waitForBodyDefault lateDoc =
      ⟨true, false, true, WaitOutcome.rejected 10000 timeoutBodyMsg⟩ ∧
    (waitForBodyDefault lateDoc).outcome ≠ WaitOutcome.resolvedBody 5 := by
  decide

/-- C6 amended claim: if the body exists at call time, the waiter resolves
immediately and registers neither timer nor observer. If the body is
absent, the observer is attached only when `readyState` is `'loading'` and
the root element exists, and then a body appearing strictly before the
deadline resolves the promise exactly once, at its first appearance, with
the observer disconnected immediately; in every other absent-body case the
waiter rejects with the timeout error at the deadline (calling
`disconnect` on the way out). -/
theorem C6_waitForBody_amended (timeout : Nat) (doc : DocState) :
    (bodyPresentAtCall doc = true →
      waitForBody timeout doc = ⟨false, false, false, WaitOutcome.resolvedBody 0⟩) ∧
    (bodyPresentAtCall doc = false → doc.readyLoading = true → doc.docElem = true →
      ∀ t, doc.bodyAt = some t → t < timeout →
        waitForBody timeout doc = ⟨true, true, true, WaitOutcome.resolvedBody t⟩) ∧
    (bodyPresentAtCall doc = false →
      (doc.readyLoading = false ∨ doc.docElem = false ∨ doc.bodyAt = none ∨
        (∀ t, doc.bodyAt = some t → timeout ≤ t)) →
      waitForBody timeout doc =
        ⟨true, doc.readyLoading && doc.docElem, true,
         WaitOutcome.rejected timeout timeoutBodyMsg⟩) := by
  refine ⟨?_, ?_, ?_⟩
  · intro h
    simp [waitForBody, h]
  · intro h hl hd t ht hlt
    simp [waitForBody, h, hl, hd, ht, hlt]
  · intro h hcase
    rcases hcase with hl | hd | hn | hge
    · simp [waitForBody, h, hl]
    · simp [waitForBody, h, hd]
    · cases hr : doc.readyLoading && doc.docElem <;> simp [waitForBody, h, hn, hr]
    · cases hb : doc.bodyAt with
      | none => cases hr : doc.readyLoading && doc.docElem <;>
          simp [waitForBody, h, hb, hr]
      | some t =>
        have hnotlt : ¬ t < timeout := Nat.not_lt.mpr (hge t hb)
        cases hr : doc.readyLoading && doc.docElem <;>
          simp [waitForBody, h, hb, hr, hnotlt]

/-- A document still loading whose body appears at time 3. -/
def loadingDoc : DocState := ⟨some 3, true, true⟩

/-- Witness for the amended C6 at concrete documents: immediate resolution
with no observer when the body exists, observed resolution at first
appearance when it appears during loading, and deadline rejection for
`lateDoc`-like documents. -/
theorem C6_waitForBody_witness :
    waitForBody 10000 (⟨some 0, true, true⟩ : DocState) =
      ⟨false, false, false, WaitOutcome.resolvedBody 0⟩ ∧
    waitForBody 10000 loadingDoc = ⟨true, true, true, WaitOutcome.resolvedBody 3⟩ ∧
    waitForBody 10000 (⟨none, true, true⟩ : DocState) =
      ⟨true, true, true, WaitOutcome.rejected 10000 timeoutBodyMsg⟩ :=
  ⟨(C6_waitForBody_amended 10000 ⟨some 0, true, true⟩).1 (by decide),
   (C6_waitForBody_amended 10000 loadingDoc).2.1 (by decide) rfl rfl 3 rfl (by decide),
   (C6_waitForBody_amended 10000 ⟨none, true, true⟩).2.2 (by decide) (Or.inr (Or.inr (Or.inl rfl)))⟩

/-! ### The menu-command polyfill `GM_registerMenuCommand` (lines 124-161)

It awaits `utils.waitForBody()` (default timeout); on rejection the
`catch` at lines 157-160 logs and returns `null`. On resolution it creates
a `menuitem` node, wraps the caller-supplied command in `wrappedCommand`
(lines 145-151) which `await`s the command inside `try` and logs any
failure, and attaches the wrapper as a click listener with
`\x7b once: true \x7d` (line 153). -/

/-- The click-handler wrapper `wrappedCommand` (lines 145-151): awaiting
the caller-supplied command inside `try` catches both a synchronous throw
and a rejected promise; the failure is logged (`console.error`, line 149)
and the wrapper itself completes normally. The returned pair is the
wrapper's own completion and the list of logged errors. -/
def wrappedCommand (commandFunc : List Value → Except String Value)
    (args : List Value) : Except String Unit × List String :=
  match commandFunc args with
  | Except.ok _ => (Except.ok (), [])
  | Except.error e => (Except.ok (), ["Menu command error: " ++ e])

/-- A DOM event listener as registered by `addEventListener` (line 153):
the handler and the `once` option. -/
structure Listener where
  handler : List Value → Except String Unit × List String
  once : Bool

/-- The `menuitem` element returned by the polyfill. -/
structure MenuItem where
  caption : String
  accessKey : Option String
  listener : Listener

/-- DOM event dispatch: the number of handler invocations a listener
receives over `n` click events (a `once` listener is removed after its
first invocation). -/
def dispatchClicks (l : Listener) (n : Nat) : Nat :=
  if l.once then min n 1 else n

/-- `polyfills.GM_registerMenuCommand` (lines 124-161), parameterised by
the document the body-waiter observes. -/
def GM_registerMenuCommand (doc : DocState) (caption : String)
    (commandFunc : List Value → Except String Value) (accessKey : Option String) :
    Option MenuItem :=
  match (waitForBodyDefault doc).outcome with
  | WaitOutcome.resolvedBody _ =>
      some ⟨caption, accessKey, ⟨wrappedCommand commandFunc, true⟩⟩
  | WaitOutcome.rejected _ _ => none

/-- C7: every menu entry the polyfill creates carries a click handler that
completes normally on every argument list — a failure of the
caller-supplied command is caught and logged, never propagated to the DOM
event-dispatch mechanism — and the listener is registered with
`once`, so over any number of click events it fires at most once. -/
theorem C7_menu_click_handler_contained (doc : DocState) (caption : String)
    (cmd : List Value → Except String Value) (accessKey : Option String)
    (item : MenuItem)
    (h : GM_registerMenuCommand doc caption cmd accessKey = some item) :
    (∀ args, (item.listener.handler args).1 = Except.ok () ∧
      ∀ e, cmd args = Except.error e →
        (item.listener.handler args).2 = ["Menu command error: " ++ e]) ∧
    item.listener.once = true ∧
    (∀ n, dispatchClicks item.listener n ≤ 1) := by
  have hitem : item = ⟨caption, accessKey, ⟨wrappedCommand cmd, true⟩⟩ := by
    cases hout : (waitForBodyDefault doc).outcome with
    | resolvedBody t =>
      rw [GM_registerMenuCommand, hout] at h
      exact (Option.some.inj h).symm
    | rejected t m =>
      rw [GM_registerMenuCommand, hout] at h
      cases h
  subst hitem
  refine ⟨?_, rfl, ?_⟩
  · intro args
    constructor
    · cases hc : cmd args <;> simp [wrappedCommand, hc]
    · intro e he
      simp [wrappedCommand, he]
  · intro n
    simp only [dispatchClicks, if_true]
    exact Nat.min_le_right n 1

/-- A document whose body exists at call time. -/
def presentDoc : DocState := ⟨some 0, true, true⟩

/-- A command that always fails. -/
def alwaysFailingCmd : List Value → Except String Value :=
  fun _ => Except.error "boom"

/-- Witness for C7 at a concrete registration: the entry exists, its
handler completes normally on a failing command (logging the failure), and
five clicks invoke it at most once. -/
theorem C7_menu_witness :
    GM_registerMenuCommand presentDoc "demo" alwaysFailingCmd none =
      some ⟨"demo", none, ⟨wrappedCommand alwaysFailingCmd, true⟩⟩ ∧
    (wrappedCommand alwaysFailingCmd []).1 = Except.ok () ∧
    (wrappedCommand alwaysFailingCmd []).2 = ["Menu command error: " ++ "boom"] ∧
    dispatchClicks (⟨wrappedCommand alwaysFailingCmd, true⟩ : Listener) 5 ≤ 1 :=
  ⟨rfl,
   ((C7_menu_click_handler_contained presentDoc "demo" alwaysFailingCmd none
      ⟨"demo", none, ⟨wrappedCommand alwaysFailingCmd, true⟩⟩ rfl).1 []).1,
   ((C7_menu_click_handler_contained presentDoc "demo" alwaysFailingCmd none
      ⟨"demo", none, ⟨wrappedCommand alwaysFailingCmd, true⟩⟩ rfl).1 []).2 "boom" rfl,
   (C7_menu_click_handler_contained presentDoc "demo" alwaysFailingCmd none
      ⟨"demo", none, ⟨wrappedCommand alwaysFailingCmd, true⟩⟩ rfl).2.2 5⟩

/-- Whether an attached observer reports the body before time `T`: true
exactly when the observer was attachable (still loading, root present) and
the body appears strictly before `T`. -/
def observedBefore (doc : DocState) (T : Nat) : Bool :=
  (doc.readyLoading && doc.docElem) &&
    (match doc.bodyAt with
     | some t => decide (t < T)
     | none => false)

/-- C10: the waiter's built-in default deadline is 10000 ms; whenever the
body is absent at call time and is not observed to appear before the
deadline, the deferred rejects with the timeout error and `disconnect` is
called; in particular with `readyState` not `'loading'` no observer is
ever registered, so the deferred rejects at the deadline even if the body
appears earlier, and `GM_registerMenuCommand` catches that rejection and
returns null. -/
theorem C10_default_deadline_and_menu_null (doc : DocState)
    (h : bodyPresentAtCall doc = false) :
    waitForBodyDefaultTimeout = 10000 ∧
    (observedBefore doc 10000 = false →
      (waitForBodyDefault doc).outcome = WaitOutcome.rejected 10000 timeoutBodyMsg ∧
      (waitForBodyDefault doc).disconnectCalled = true) ∧
    (doc.readyLoading = false →
      (waitForBodyDefault doc).observerRegistered = false ∧
      (waitForBodyDefault doc).outcome = WaitOutcome.rejected 10000 timeoutBodyMsg ∧
      ∀ caption cmd accessKey,
        GM_registerMenuCommand doc caption cmd accessKey = none) := by
  refine ⟨rfl, ?_, ?_⟩
  · intro hob
    cases hr : doc.readyLoading && doc.docElem with
    | false =>
      simp [waitForBodyDefault, waitForBody, waitForBodyDefaultTimeout, h, hr]
    | true =>
      cases hb : doc.bodyAt with
      | none =>
        simp [waitForBodyDefault, waitForBody, waitForBodyDefaultTimeout, h, hr, hb]
      | some t =>
        have hnotlt : ¬ t < 10000 := by
          rw [observedBefore, hr, hb] at hob
          simpa using hob
        simp [waitForBodyDefault, waitForBody, waitForBodyDefaultTimeout, h, hr, hb, hnotlt]
  · intro hl
    have hr : (doc.readyLoading && doc.docElem) = false := by rw [hl]; rfl
    have hw : waitForBodyDefault doc =
        ⟨true, false, true, WaitOutcome.rejected 10000 timeoutBodyMsg⟩ := by
      simp [waitForBodyDefault, waitForBody, waitForBodyDefaultTimeout, h, hr]
    refine ⟨by rw [hw], by rw [hw], ?_⟩
    intro caption cmd accessKey
    rw [GM_registerMenuCommand, hw]

/-- Witness for C10 at `lateDoc` (body appears at 5, `readyState` no
longer `'loading'`): no observer, deadline rejection, and a null menu
registration. -/
theorem C10_deadline_witness :
    (waitForBodyDefault lateDoc).observerRegistered = false ∧
    (waitForBodyDefault lateDoc).outcome = WaitOutcome.rejected 10000 timeoutBodyMsg ∧
    GM_registerMenuCommand lateDoc "demo" alwaysFailingCmd none = none :=
  ⟨((C10_default_deadline_and_menu_null lateDoc (by decide)).2.2 rfl).1,
   ((C10_default_deadline_and_menu_null lateDoc (by decide)).2.2 rfl).2.1,
   ((C10_default_deadline_and_menu_null lateDoc (by decide)).2.2 rfl).2.2
     "demo" alwaysFailingCmd none⟩

/-! ### The resource-text polyfill `GM_getResourceText` (lines 164-184)

`while (attempts < maxRetries)`: each iteration awaits
`GM.getResourceUrl`, `fetch` and `response.text()` — modelled as one
fallible resolve-then-fetch step indexed by the attempt number — and
returns the text on success. On failure it increments `attempts`; if
`attempts === maxRetries` it logs and returns `null`, otherwise it sleeps
`Math.pow(2, attempts) * 1000` ms and retries. Every failure is caught by
the `try`, so the function never throws or rejects. -/

/-- Result of one `GM_getResourceText` call: the returned text (`none` for
the `null` return after retry exhaustion, or for the `undefined` fallout
of a loop that never runs), the number of resolve-then-fetch attempts
performed, and the backoff delays slept between attempts, in order. -/
structure ResourceFetchResult where
  result : Option String
  attemptsMade : Nat
  delays : List Nat
  deriving DecidableEq

/-- The `while` loop of lines 166-183, with `attempts` the loop variable
of line 165, `calls` counting resolve-then-fetch attempts, and `fuel` a
structural bound: each iteration increments `attempts` toward
`maxRetries`, so `fuel = maxRetries` iterations always suffice and the
fuel-exhaustion branch is unreachable. -/
def getResourceTextGo (step : Nat → Except String String) (maxRetries : Nat) :
    Nat → Nat → Nat → List Nat → ResourceFetchResult
  | 0, _, calls, delays => ⟨none, calls, delays⟩
  | fuel + 1, attempts, calls, delays =>
    if attempts < maxRetries then
      match step attempts with
      | Except.ok text => ⟨some text, calls + 1, delays⟩
      | Except.error _ =>
          if attempts + 1 = maxRetries then ⟨none, calls + 1, delays⟩
          else
            getResourceTextGo step maxRetries fuel (attempts + 1) (calls + 1)
              (delays ++ [2 ^ (attempts + 1) * 1000])
    else ⟨none, calls, delays⟩

/-- `polyfills.GM_getResourceText(resourceId, maxRetries)` (lines
164-184): run the loop from `attempts = 0`. -/
def GM_getResourceText (step : Nat → Except String String) (maxRetries : Nat) :
    ResourceFetchResult :=
  getResourceTextGo step maxRetries maxRetries 0 0 []

/-- C5: with the default bound of 3, a resolve-then-fetch step that fails
twice then succeeds yields the successful text after 3 attempts in total
(the initial attempt plus exactly 2 retries) with inter-attempt delays of
2000 ms then 4000 ms; a step that always fails yields `null` after exactly
3 attempts (same two delays) without throwing or rejecting — every failure
is consumed by the `catch`, which the model reflects by returning a plain
`Option` with no error channel. -/
theorem C5_getResourceText_retry_semantics (step : Nat → Except String String) :
    (∀ text e0 e1, step 0 = Except.error e0 → step 1 = Except.error e1 →
      step 2 = Except.ok text →
      GM_getResourceText step 3 = ⟨some text, 3, [2000, 4000]⟩) ∧
    (∀ e0 e1 e2, step 0 = Except.error e0 → step 1 = Except.error e1 →
      step 2 = Except.error e2 →
      GM_getResourceText step 3 = ⟨none, 3, [2000, 4000]⟩) := by
  constructor
  · intro text e0 e1 h0 h1 h2
    simp [GM_getResourceText, getResourceTextGo, h0, h1, h2]
  · intro e0 e1 e2 h0 h1 h2
    simp [GM_getResourceText, getResourceTextGo, h0, h1, h2]

/-- A resolve-then-fetch behaviour failing on the first two attempts and
succeeding on the third. -/
def flakyStep : Nat → Except String String :=
  fun i => if i < 2 then Except.error "network" else Except.ok "css-text"

/-- A resolve-then-fetch behaviour that always fails. -/
def deadStep : Nat → Except String String := fun _ => Except.error "network"

/-- Witness for C5 at concrete behaviours: the flaky fetch returns the
text after 3 attempts with delays 2000 and 4000 ms; the dead fetch returns
null after exactly 3 attempts. -/
theorem C5_retry_witness :
    GM_getResourceText flakyStep 3 = ⟨some "css-text", 3, [2000, 4000]⟩ ∧
    GM_getResourceText deadStep 3 = ⟨none, 3, [2000, 4000]⟩ :=
  ⟨(C5_getResourceText_retry_semantics flakyStep).1 "css-text" "network" "network"
     rfl rfl rfl,
   (C5_getResourceText_retry_semantics deadStep).2 "network" "network" "network"
     rfl rfl rfl⟩

end GM4Polyfill
